import Mathlib

/-
Verification development for the transport-and-framing layer of a
line-oriented IRC client library.  The embedding covers the line codec
(src/proto/line.rs) together with the trap-driven decode and encode
machinery of the character-encoding library it is built on, and the
connection establishment layer (src/client/conn.rs).
-/

instance {ε α : Type} [DecidableEq ε] [DecidableEq α] : DecidableEq (Except ε α) :=
  fun a b =>
    match a, b with
    | .ok x, .ok y =>
      if h : x = y then .isTrue (by rw [h]) else .isFalse (by simp [h])
    | .error x, .error y =>
      if h : x = y then .isTrue (by rw [h]) else .isFalse (by simp [h])
    | .ok _, .error _ => .isFalse (by simp)
    | .error _, .ok _ => .isFalse (by simp)

namespace Irc

/-! ## Character-encoding layer

The codec in line.rs is parameterized by an `Encoding` from the
rust-encoding crate.  Decoding is driven by a trap: `Strict` fails on the
first malformed sequence, `Replace` substitutes U+FFFD and continues.
Encoding likewise: `Replace` substitutes the encoded form of a question
mark for an unencodable character. -/

inductive DecoderTrap where
  | strict
  | replace
deriving DecidableEq

inductive EncoderTrap where
  | strict
  | replace
deriving DecidableEq

def replacementChar : Char := Char.ofNat 0xFFFD

def questionMark : Char := Char.ofNat 63

/-- Outcome of a trap on a malformed sequence: under the strict trap the
whole decode fails with the offending bytes, under the replacing trap a
replacement character is emitted and decoding continues with `k`. -/
def replOrErr (t : DecoderTrap) (orig : List Nat)
    (k : Except (List Nat) (List Char)) : Except (List Nat) (List Char) :=
  match t with
  | .strict => .error orig
  | .replace => k.map (fun cs => replacementChar :: cs)

/-- Decoder state between two bytes: either at a sequence boundary, or
inside a multi-byte sequence with `n` continuation bytes still expected,
the scalar value accumulated so far, and the acceptable range for the next
byte (which encodes the overlong and surrogate restrictions on the second
byte of a sequence). -/
inductive Utf8Mode where
  | start
  | more (n : Nat) (acc : Nat) (lo : Nat) (hi : Nat)

/-- Lower bound for the second byte of a three-byte sequence (the overlong
restriction after lead byte 0xE0). -/
def snd3Lo (b : Nat) : Nat := if b = 0xE0 then 0xA0 else 0x80

/-- Upper bound for the second byte of a three-byte sequence (the surrogate
restriction after lead byte 0xED). -/
def snd3Hi (b : Nat) : Nat := if b = 0xED then 0x9F else 0xBF

/-- Lower bound for the second byte of a four-byte sequence (the overlong
restriction after lead byte 0xF0). -/
def snd4Lo (b : Nat) : Nat := if b = 0xF0 then 0x90 else 0x80

/-- Upper bound for the second byte of a four-byte sequence (the range
restriction after lead byte 0xF4). -/
def snd4Hi (b : Nat) : Nat := if b = 0xF4 then 0x8F else 0xBF

/-- UTF-8 decoding under a trap, modelling the incremental rust-encoding
UTF-8 decoder: one byte is examined per step; a byte that is unacceptable
in the current state triggers the trap and is then re-examined as the start
of a new sequence; truncation at end of input also triggers the trap. -/
def utf8DecodeLoop (t : DecoderTrap) (mode : Utf8Mode) :
    List Nat → Except (List Nat) (List Char)
  | [] =>
    match mode with
    | .start => .ok []
    | .more _ _ _ _ => replOrErr t [] (.ok [])
  | b :: bs =>
    let lead : Except (List Nat) (List Char) :=
      if b ≤ 0x7F then
        (utf8DecodeLoop t .start bs).map (fun cs => Char.ofNat b :: cs)
      else if 0xC2 ≤ b ∧ b ≤ 0xDF then
        utf8DecodeLoop t (.more 1 (b - 0xC0) 0x80 0xBF) bs
      else if 0xE0 ≤ b ∧ b ≤ 0xEF then
        utf8DecodeLoop t (.more 2 (b - 0xE0) (snd3Lo b) (snd3Hi b)) bs
      else if 0xF0 ≤ b ∧ b ≤ 0xF4 then
        utf8DecodeLoop t (.more 3 (b - 0xF0) (snd4Lo b) (snd4Hi b)) bs
      else replOrErr t (b :: bs) (utf8DecodeLoop t .start bs)
    match mode with
    | .start => lead
    | .more n acc lo hi =>
      if lo ≤ b ∧ b ≤ hi then
        if n ≤ 1 then
          (utf8DecodeLoop t .start bs).map
            (fun cs => Char.ofNat (acc * 64 + (b - 0x80)) :: cs)
        else utf8DecodeLoop t (.more (n - 1) (acc * 64 + (b - 0x80)) 0x80 0xBF) bs
      else replOrErr t (b :: bs) lead

/-- Whole-input UTF-8 decoding under a trap. -/
def utf8DecodeTrap (t : DecoderTrap) (bs : List Nat) :
    Except (List Nat) (List Char) :=
  utf8DecodeLoop t .start bs

/-- UTF-8 encoding of one character (scalar values only, as guaranteed by
`Char`). -/
def utf8EncodeChar (c : Char) : List Nat :=
  let n := c.toNat
  if n ≤ 0x7F then [n]
  else if n ≤ 0x7FF then [0xC0 + n / 64, 0x80 + n % 64]
  else if n ≤ 0xFFFF then [0xE0 + n / 4096, 0x80 + n / 64 % 64, 0x80 + n % 64]
  else [0xF0 + n / 262144, 0x80 + n / 4096 % 64, 0x80 + n / 64 % 64, 0x80 + n % 64]

/-- UTF-8 encoding of a character sequence. -/
def utf8EncodeAll : List Char → List Nat
  | [] => []
  | c :: cs => utf8EncodeChar c ++ utf8EncodeAll cs

/-- The trap-driven encode loop of the encoding library: each character is
encoded by `encChar`; an unencodable character fails the whole encode under
the strict trap and is replaced by the encoding of a question mark under
the replacing trap. -/
def encodeTrapLoop (encChar : Char → Option (List Nat)) (t : EncoderTrap) :
    List Char → Except (List Char) (List Nat)
  | [] => .ok []
  | c :: cs =>
    match encChar c with
    | some bs => (encodeTrapLoop encChar t cs).map (fun rest => bs ++ rest)
    | none =>
      match t with
      | .strict => .error (c :: cs)
      | .replace =>
        match encChar questionMark with
        | some q => (encodeTrapLoop encChar t cs).map (fun rest => q ++ rest)
        | none => .error (c :: cs)

/-- An encoding as used by the codec: a name, a trap-driven decoder, and a
single-character encoder (`none` marks an unencodable character). -/
structure EncodingImpl where
  name : String
  decodeTrap : DecoderTrap → List Nat → Except (List Nat) (List Char)
  encodeChar : Char → Option (List Nat)

def EncodingImpl.encodeTrap (e : EncodingImpl) (t : EncoderTrap)
    (cs : List Char) : Except (List Char) (List Nat) :=
  encodeTrapLoop e.encodeChar t cs

def utf8 : EncodingImpl :=
  { name := "utf-8"
    decodeTrap := utf8DecodeTrap
    encodeChar := fun c => some (utf8EncodeChar c) }

/-- ASCII decoding under a trap: bytes up to 0x7F decode to themselves,
anything else triggers the trap. -/
def asciiDecodeTrap (t : DecoderTrap) : List Nat → Except (List Nat) (List Char)
  | [] => .ok []
  | b :: bs =>
    if b ≤ 0x7F then (asciiDecodeTrap t bs).map (fun cs => Char.ofNat b :: cs)
    else replOrErr t (b :: bs) (asciiDecodeTrap t bs)

def asciiOnly : EncodingImpl :=
  { name := "ascii"
    decodeTrap := asciiDecodeTrap
    encodeChar := fun c => if c.toNat ≤ 0x7F then some [c.toNat] else none }

/-! ## Line codec (src/proto/line.rs) -/

/-- Position of the first byte satisfying `p`, mirroring
`buf.as_ref().iter().position(..)`. -/
def bytePosition (p : Nat → Bool) : List Nat → Option Nat
  | [] => none
  | b :: bs => if p b then some 0 else (bytePosition p bs).map (fun n => n + 1)

/-- The io::Error values the codec can construct (kind InvalidInput with a
formatted message). -/
inductive CodecIoError where
  | invalidInput (msg : String)
deriving DecidableEq

/-- LineCodec::decode: scan for the first newline byte; if found at `n`,
drain the `n` content bytes and the newline, and decode the content with
the replacing trap; otherwise leave the buffer untouched and report that no
frame is complete.  Returns the result together with the buffer contents
after the call. -/
def LineCodec.decode (e : EncodingImpl) (buf : List Nat) :
    Except CodecIoError (Option String) × List Nat :=
  match bytePosition (fun b => b == 10) buf with
  | some n =>
    let line := buf.take n
    let rest := (buf.drop n).drop 1
    match e.decodeTrap .replace line with
    | .ok cs => (.ok (some (String.mk cs)), rest)
    | .error _ =>
      (.error (.invalidInput ("Failed to decode as " ++ e.name ++ ".")), rest)
  | none => (.ok none, buf)

/-- LineCodec::encode: encode the message with the replacing trap and append
the bytes to the output buffer.  Returns the result together with the buffer
contents after the call. -/
def LineCodec.encode (e : EncodingImpl) (msg : String) (buf : List Nat) :
    Except CodecIoError Unit × List Nat :=
  match EncodingImpl.encodeTrap e .replace msg.data with
  | .ok data => (.ok (), buf ++ data)
  | .error _ =>
    (.error (.invalidInput ("Failed to encode as " ++ e.name ++ ".")), buf)

/-! ## Connection layer (src/client/conn.rs)

File reads, certificate and identity parsing, TCP connection attempts and
TLS handshakes are external effects; they are represented by an explicit
`World` supplying their outcomes, and `Connection::new` additionally
reports the list of network actions it initiated. -/

/-- Modelled from the spec: the io::ErrorKind distinctions relevant to the
file reads and the TCP connect of the establishment paths. -/
inductive IoErrorKind where
  | notFound
  | connectionRefused
  | otherKind (msg : String)
deriving DecidableEq

/-- Modelled from the spec: the typed error of the crate-level error module
(not under src), restricted to the variants the connection layer
constructs — I/O errors, TLS errors, the unknown-codec error naming the
requested label, and the encode-failure error of the simulated path. -/
inductive IrcError where
  | io (kind : IoErrorKind)
  | tls (msg : String)
  | unknownCodec (codec : String)
  | codecFailed (codec : String) (data : String)
deriving DecidableEq

abbrev SocketAddr := String

abbrev TcpSock := Nat

abbrev TlsSock := Nat

/-- Modelled from the spec: the read-only configuration surface consumed by
the establishment paths.  `server` and `socket_addr` are the fallible
accessors `config.server()` and `config.socket_addr()`. -/
structure Config where
  use_mock_connection : Bool
  use_ssl : Bool
  encoding : String
  mock_initial_value : String
  cert_path : Option String
  client_cert_path : Option String
  client_cert_pass : String
  insecure : Bool
  server : Except IrcError String
  socket_addr : Except IrcError SocketAddr

/-- Outcome of polling an asynchronous sub-operation. -/
inductive Async (ε : Type) (α : Type) where
  | notReady
  | ready (a : α)
  | failed (e : ε)

/-- The external effects consulted during establishment: whole-file reads
(`files path` is the contents, or the I/O failure of open/read),
DER-certificate parsing, PKCS#12 parsing with a passphrase, TLS-connector
construction, and the asynchronous TCP connect and TLS handshake. -/
structure World where
  files : String → Except IoErrorKind (List Nat)
  parseDer : List Nat → Except String Unit
  parsePkcs12 : List Nat → String → Except String Unit
  tlsBuild : Except String Unit
  tcpConnect : SocketAddr → Async IoErrorKind TcpSock
  tlsHandshake : String → TcpSock → Async String TlsSock

/-- A network action initiated during `Connection::new`. -/
inductive Event where
  | tcpConnect (addr : SocketAddr)
deriving DecidableEq

/-- Modelled from the external encoding-registry lookup
`encoding_from_whatwg_label`, restricted to the labels this development
uses: the UTF-8 labels resolve to the UTF-8 encoding, everything else is
unknown. -/
def encodingFromLabel : String → Option EncodingImpl
  | "utf-8" => some utf8
  | "utf8" => some utf8
  | "unicode-1-1-utf-8" => some utf8
  | _ => none

/-- Modelled from the spec: `IrcCodec` (not under src) is the framing codec
bound to one encoding label. -/
structure IrcCodec where
  label : String
deriving DecidableEq

/-- Modelled from the spec: `IrcCodec::new` resolves the label through the
encoding registry and fails with the unknown-codec error naming the
requested label when it does not resolve. -/
def IrcCodec.new (label : String) : Except IrcError IrcCodec :=
  match encodingFromLabel label with
  | some _ => .ok ⟨label⟩
  | none => .error (.unknownCodec label)

/-- Modelled from the spec: `IrcTransport` (not under src) wraps the framed
stream produced by attaching the codec; only the codec binding matters
here. -/
structure IrcTransport where
  codec : IrcCodec
deriving DecidableEq

/-- Modelled from the spec: the test-only read-only view onto the write
history of a simulated connection. -/
structure LogView where
  sent : List String
deriving DecidableEq

/-- Modelled from the spec: `Logged` (not under src) wraps a transport with
the write-capture facility of the simulated path. -/
structure Logged where
  transport : IrcTransport
  viewHandle : LogView
deriving DecidableEq

def Logged.wrap (t : IrcTransport) : Logged :=
  { transport := t, viewHandle := { sent := [] } }

def Logged.view (l : Logged) : LogView :=
  l.viewHandle

/-- The `Connection` sum type: one variant per transport kind. -/
inductive Connection where
  | Unsecured (t : IrcTransport)
  | Secured (t : IrcTransport)
  | Mock (l : Logged)
deriving DecidableEq

/-- The `ConnectionFuture` sum type.  The source variants carry the pending
sub-future (`TcpStreamNew`, boxed TLS future); these are determined by the
socket address (and, for TLS, the domain) captured when `Connection::new`
built them. -/
inductive ConnectionFuture where
  | Unsecured (config : Config) (addr : SocketAddr)
  | Secured (config : Config) (domain : String) (addr : SocketAddr)
  | Mock (config : Config)

inductive Variant where
  | plain
  | encrypted
  | simulated
deriving DecidableEq

def ConnectionFuture.variant : ConnectionFuture → Variant
  | .Unsecured _ _ => .plain
  | .Secured _ _ _ => .encrypted
  | .Mock _ => .simulated

def Connection.variant : Connection → Variant
  | .Unsecured _ => .plain
  | .Secured _ => .encrypted
  | .Mock _ => .simulated

/-- The root-certificate step of the encrypted path: open and read the
configured certificate file and parse it as a DER certificate, skipped when
no path is configured. -/
def certSetup (cfg : Config) (w : World) : Except IrcError Unit :=
  match cfg.cert_path with
  | none => .ok ()
  | some path =>
    match w.files path with
    | .error k => .error (.io k)
    | .ok bytes =>
      match w.parseDer bytes with
      | .error m => .error (.tls m)
      | .ok () => .ok ()

/-- The client-identity step of the encrypted path: open and read the
configured identity file and parse it as a PKCS#12 archive with the
configured passphrase, skipped when no path is configured. -/
def identitySetup (cfg : Config) (w : World) : Except IrcError Unit :=
  match cfg.client_cert_path with
  | none => .ok ()
  | some path =>
    match w.files path with
    | .error k => .error (.io k)
    | .ok bytes =>
      match w.parsePkcs12 bytes cfg.client_cert_pass with
      | .error m => .error (.tls m)
      | .ok () => .ok ()

/-- Connection::new: select the establishment path by flag priority (mock,
then ssl, then plain) and run the synchronous part of that path, returning
the pending future together with the network actions initiated.  The
`insecure` flag only toggles certificate validation on the handshake and
introduces no failure or event of its own. -/
def Connection.new (cfg : Config) (w : World) :
    Except IrcError ConnectionFuture × List Event :=
  if cfg.use_mock_connection = true then
    (.ok (.Mock cfg), [])
  else if cfg.use_ssl = true then
    match cfg.server with
    | .error e => (.error e, [])
    | .ok domain =>
      match certSetup cfg w with
      | .error e => (.error e, [])
      | .ok () =>
        match identitySetup cfg w with
        | .error e => (.error e, [])
        | .ok () =>
          match w.tlsBuild with
          | .error m => (.error (.tls m), [])
          | .ok () =>
            match cfg.socket_addr with
            | .error e => (.error e, [])
            | .ok addr => (.ok (.Secured cfg domain addr), [Event.tcpConnect addr])
  else
    match cfg.server with
    | .error e => (.error e, [])
    | .ok _ =>
      match cfg.socket_addr with
      | .error e => (.error e, [])
      | .ok addr => (.ok (.Unsecured cfg addr), [Event.tcpConnect addr])

/-- Result of one poll of a `ConnectionFuture`. -/
inductive PollResult where
  | notReady
  | ready (c : Connection)
  | err (e : IrcError)

/-- ConnectionFuture::poll.  The plain path waits for the TCP connect, then
builds the codec and transport; the encrypted path waits for the TCP
connect and then the TLS handshake; the simulated path resolves the
encoding label, encodes the configured initial payload with the replacing
trap, preloads the in-memory stream, builds the codec and transport and
wraps it with the write-capture facility, resolving immediately. -/
def ConnectionFuture.poll (f : ConnectionFuture) (w : World) : PollResult :=
  match f with
  | .Unsecured cfg addr =>
    match w.tcpConnect addr with
    | .notReady => .notReady
    | .failed k => .err (.io k)
    | .ready _sock =>
      match IrcCodec.new cfg.encoding with
      | .error e => .err e
      | .ok codec => .ready (.Unsecured { codec := codec })
  | .Secured cfg domain addr =>
    match w.tcpConnect addr with
    | .notReady => .notReady
    | .failed k => .err (.io k)
    | .ready sock =>
      match w.tlsHandshake domain sock with
      | .notReady => .notReady
      | .failed m => .err (.tls m)
      | .ready _tls =>
        match IrcCodec.new cfg.encoding with
        | .error e => .err e
        | .ok codec => .ready (.Secured { codec := codec })
  | .Mock cfg =>
    match encodingFromLabel cfg.encoding with
    | none => .err (.unknownCodec cfg.encoding)
    | some enc =>
      match EncodingImpl.encodeTrap enc .replace cfg.mock_initial_value.data with
      | .error failedData => .err (.codecFailed enc.name (String.mk failedData))
      | .ok _initial =>
        match IrcCodec.new cfg.encoding with
        | .error e => .err e
        | .ok codec => .ready (.Mock (Logged.wrap { codec := codec }))

/-- Connection::log_view: the capture view is available exactly for the
simulated variant. -/
def Connection.log_view : Connection → Option LogView
  | .Mock inner => some (Logged.view inner)
  | _ => none


/-! ## Concrete configurations and worlds used by the witnesses -/

def nickBuf : List Nat := [78, 73, 67, 75, 32, 102, 111, 111, 13, 10]

def cfgBase : Config :=
  { use_mock_connection := false
    use_ssl := false
    encoding := "utf-8"
    mock_initial_value := ""
    cert_path := none
    client_cert_path := none
    client_cert_pass := ""
    insecure := false
    server := .ok "irc.example.com"
    socket_addr := .ok "203.0.113.5:6667" }

def cfgMockHello : Config :=
  { cfgBase with use_mock_connection := true, mock_initial_value := "hello
" }

def cfgNoSuch : Config :=
  { cfgBase with encoding := "no-such-encoding" }

def cfgMockNoSuch : Config :=
  { cfgBase with use_mock_connection := true, encoding := "no-such-encoding" }

def cfgSslMissingCert : Config :=
  { cfgBase with use_ssl := true, cert_path := some "/missing/root.der" }

def cfgSslFull : Config :=
  { cfgBase with
      use_ssl := true
      cert_path := some "/etc/root.der"
      client_cert_path := some "/etc/client.p12"
      client_cert_pass := "hunter2" }

/-- A world whose asynchronous operations are all still pending and whose
file reads all fail with not-found. -/
def wIdle : World :=
  { files := fun _ => .error .notFound
    parseDer := fun _ => .ok ()
    parsePkcs12 := fun _ _ => .ok ()
    tlsBuild := .ok ()
    tcpConnect := fun _ => .notReady
    tlsHandshake := fun _ _ => .notReady }

/-- A world in which every external operation succeeds. -/
def wReady : World :=
  { files := fun _ => .ok [48]
    parseDer := fun _ => .ok ()
    parsePkcs12 := fun _ _ => .ok ()
    tlsBuild := .ok ()
    tcpConnect := fun _ => .ready 7
    tlsHandshake := fun _ _ => .ready 9 }

/-- A world whose TCP connect is refused. -/
def wRefused : World :=
  { files := fun _ => .ok [48]
    parseDer := fun _ => .ok ()
    parsePkcs12 := fun _ _ => .ok ()
    tlsBuild := .ok ()
    tcpConnect := fun _ => .failed .connectionRefused
    tlsHandshake := fun _ _ => .notReady }

/-! ## Codec lemmas -/

theorem bytePosition_eq_none (p : Nat → Bool) :
    ∀ l : List Nat, (∀ b ∈ l, p b = false) → bytePosition p l = none
  | [], _ => rfl
  | b :: bs, h => by
    have hb := h b (by simp)
    have ih := bytePosition_eq_none p bs (fun x hx => h x (by simp [hx]))
    simp [bytePosition, hb, ih]

theorem bytePosition_append (p : Nat → Bool) (b : Nat) (l2 : List Nat)
    (hb : p b = true) :
    ∀ l1 : List Nat, (∀ x ∈ l1, p x = false) →
      bytePosition p (l1 ++ b :: l2) = some l1.length
  | [], _ => by simp [bytePosition, hb]
  | a :: l, h => by
    have ha := h a (by simp)
    have ih := bytePosition_append p b l2 hb l (fun x hx => h x (by simp [hx]))
    simp [bytePosition, ha, ih]

theorem except_map_eq_error {α β γ : Type} (f : β → γ) (x : Except α β) (r : α)
    (h : x.map f = .error r) : x = .error r := by
  cases x <;> simp_all [Except.map]

theorem except_isOk_map {α β γ : Type} (f : β → γ) (x : Except α β) :
    (x.map f).isOk = x.isOk := by
  cases x <;> rfl

/-- Decoding with the replacing trap never fails, in any decoder state. -/
theorem utf8_loop_replace_ok (mode : Utf8Mode) (bs : List Nat) :
    ∃ cs, utf8DecodeLoop .replace mode bs = .ok cs := by
  induction mode, bs using utf8DecodeLoop.induct with
  | t => exact DecoderTrap.replace
  | case1 => exact ⟨[], rfl⟩
  | case2 n acc lo hi => exact ⟨[replacementChar], rfl⟩
  | case3 b bs ih1 ih2 ih3 ih4 =>
    obtain ⟨cs1, h1⟩ := ih1
    obtain ⟨cs2, h2⟩ := ih2
    obtain ⟨cs3, h3⟩ := ih3
    obtain ⟨cs4, h4⟩ := ih4
    simp only [utf8DecodeLoop, replOrErr]
    split_ifs <;> simp [h1, h2, h3, h4, Except.map]
  | case4 b bs n acc lo hi hr hn ih1 ih2 ih3 ih4 =>
    obtain ⟨cs1, h1⟩ := ih1
    simp only [utf8DecodeLoop, replOrErr]
    rw [if_pos hr, if_pos hn]
    simp [h1, Except.map]
  | case5 b bs n acc lo hi hr hn ih1 ih2 ih3 ih4 ih5 =>
    obtain ⟨cs5, h5⟩ := ih5
    simp only [utf8DecodeLoop, replOrErr]
    rw [if_pos hr, if_neg hn]
    exact ⟨cs5, h5⟩
  | case6 b bs n acc lo hi hr ih1 ih2 ih3 ih4 =>
    obtain ⟨cs1, h1⟩ := ih1
    obtain ⟨cs2, h2⟩ := ih2
    obtain ⟨cs3, h3⟩ := ih3
    obtain ⟨cs4, h4⟩ := ih4
    simp only [utf8DecodeLoop, replOrErr]
    rw [if_neg hr]
    split_ifs <;> simp [h1, h2, h3, h4, Except.map]

/-- Decoding with the replacing trap never fails. -/
theorem utf8_replace_ok (bs : List Nat) :
    ∃ cs, utf8DecodeTrap .replace bs = .ok cs :=
  utf8_loop_replace_ok .start bs

/-- Wherever the strict trap fails, the replacing trap succeeds and its
output contains the replacement character. -/
theorem utf8_loop_strict_error (mode : Utf8Mode) (bs : List Nat) :
    (utf8DecodeLoop .strict mode bs).isOk = false →
    ∃ cs, utf8DecodeLoop .replace mode bs = .ok cs ∧ replacementChar ∈ cs := by
  induction mode, bs using utf8DecodeLoop.induct with
  | t => exact DecoderTrap.strict
  | case1 => intro h; simp [utf8DecodeLoop, Except.isOk, Except.toBool] at h
  | case2 n acc lo hi =>
    intro _
    exact ⟨[replacementChar], rfl, by simp⟩
  | case3 b bs ih1 ih2 ih3 ih4 =>
    simp only [utf8DecodeLoop, replOrErr]
    split_ifs with hb1 hb2 hb3 hb4
    · intro h
      rw [except_isOk_map] at h
      obtain ⟨cs, hcs, hm⟩ := ih1 h
      refine ⟨Char.ofNat b :: cs, ?_, ?_⟩
      · simp [hcs, Except.map]
      · simp [hm]
    · exact ih2
    · exact ih3
    · exact ih4
    · intro _
      obtain ⟨cs, hcs⟩ := utf8_loop_replace_ok .start bs
      refine ⟨replacementChar :: cs, ?_, ?_⟩
      · simp [hcs, Except.map]
      · simp
  | case4 b bs n acc lo hi hr hn ih1 ih2 ih3 ih4 =>
    simp only [utf8DecodeLoop, replOrErr]
    simp only [if_pos hr, if_pos hn]
    intro h
    rw [except_isOk_map] at h
    obtain ⟨cs, hcs, hm⟩ := ih1 h
    refine ⟨Char.ofNat (acc * 64 + (b - 128)) :: cs, ?_, ?_⟩
    · simp [hcs, Except.map]
    · simp [hm]
  | case5 b bs n acc lo hi hr hn ih1 ih2 ih3 ih4 ih5 =>
    simp only [utf8DecodeLoop, replOrErr]
    simp only [if_pos hr, if_neg hn]
    exact ih5
  | case6 b bs n acc lo hi hr ih1 ih2 ih3 ih4 =>
    simp only [utf8DecodeLoop]
    simp only [if_neg hr]
    intro _
    simp only [replOrErr]
    obtain ⟨cs1, h1⟩ := utf8_loop_replace_ok .start bs
    obtain ⟨cs2, h2⟩ := utf8_loop_replace_ok (.more 1 (b - 0xC0) 0x80 0xBF) bs
    obtain ⟨cs3, h3⟩ := utf8_loop_replace_ok (.more 2 (b - 0xE0) (snd3Lo b) (snd3Hi b)) bs
    obtain ⟨cs4, h4⟩ := utf8_loop_replace_ok (.more 3 (b - 0xF0) (snd4Lo b) (snd4Hi b)) bs
    split_ifs <;> simp [h1, h2, h3, h4, Except.map]

/-- Wherever the strict trap fails on a whole input, the replacing trap
succeeds with a replacement character in the output. -/
theorem utf8_strict_error_replace (bs : List Nat)
    (h : (utf8DecodeTrap .strict bs).isOk = false) :
    ∃ cs, utf8DecodeTrap .replace bs = .ok cs ∧ replacementChar ∈ cs :=
  utf8_loop_strict_error .start bs h

theorem bytePosition_ne (p : Nat → Bool) (buf : List Nat)
    (h : ∀ b ∈ buf, b ≠ 10) (hp : p = fun b => b == 10) :
    bytePosition p buf = none := by
  subst hp
  exact bytePosition_eq_none _ buf (fun x hx => by simpa using h x hx)

/-! ## Claim theorems for the line codec -/

/-- C1: when the first newline byte of the buffer is at position n, decode
removes exactly the first n+1 bytes from the front of the buffer and
returns the replacing-trap decoding of the first n bytes, with no trimming
of the content. -/
theorem decode_consumes_first_frame (e : EncodingImpl) (buf : List Nat)
    (n : Nat) (cs : List Char)
    (hpos : bytePosition (fun b => b == 10) buf = some n)
    (hdec : e.decodeTrap .replace (buf.take n) = .ok cs) :
    LineCodec.decode e buf = (.ok (some (String.mk cs)), buf.drop (n + 1)) := by
  simp only [LineCodec.decode, hpos, hdec, List.drop_drop]

/-- Witness for C1: decoding the buffer NICK-foo-CR-LF under UTF-8 consumes
all ten bytes and returns the nine content bytes decoded, carriage return
retained. -/
theorem decode_consumes_first_frame_example :
    bytePosition (fun b => b == 10) nickBuf = some 9 ∧
    utf8.decodeTrap .replace (nickBuf.take 9) = .ok ("NICK foo\r".data) ∧
    LineCodec.decode utf8 nickBuf = (.ok (some "NICK foo\r"), []) := by
  refine ⟨by decide, by decide, ?_⟩
  exact decode_consumes_first_frame utf8 nickBuf 9 ("NICK foo\r".data)
    (by decide) (by decide)

/-- C2: a buffer containing no newline byte decodes to the no-frame result
and is left bit-for-bit unchanged. -/
theorem decode_without_terminator (e : EncodingImpl) (buf : List Nat)
    (h : ∀ b ∈ buf, b ≠ 10) :
    LineCodec.decode e buf = (.ok none, buf) := by
  have hpos := bytePosition_ne (fun b => b == 10) buf h rfl
  simp only [LineCodec.decode, hpos]

/-- Witness for C2 on a buffer with no newline byte. -/
theorem decode_without_terminator_example :
    (∀ b ∈ [78, 73], b ≠ 10) ∧
    LineCodec.decode utf8 [78, 73] = (.ok none, [78, 73]) :=
  ⟨by decide, decode_without_terminator utf8 [78, 73] (by decide)⟩

/-- C4: decoding with the replacing trap never fails, and for every buffer
whose first newline byte is at position n and whose first n bytes are
invalid under UTF-8 (the strict trap rejects them), decode succeeds,
consumes n+1 bytes, and the returned text contains the replacement
character; the error branch of decode is unreachable. -/
theorem decode_invalid_bytes_replaced :
    (∀ bs : List Nat, ∃ cs, utf8DecodeTrap .replace bs = .ok cs) ∧
    (∀ (buf : List Nat) (n : Nat),
      bytePosition (fun b => b == 10) buf = some n →
      (utf8DecodeTrap .strict (buf.take n)).isOk = false →
      ∃ s : String,
        LineCodec.decode utf8 buf = (.ok (some s), buf.drop (n + 1)) ∧
        replacementChar ∈ s.data) := by
  refine ⟨utf8_replace_ok, ?_⟩
  intro buf n hpos hbad
  obtain ⟨cs, hcs, hm⟩ := utf8_strict_error_replace (buf.take n) hbad
  refine ⟨String.mk cs, ?_, by simpa using hm⟩
  simp only [LineCodec.decode, hpos, List.drop_drop]
  have hcs2 : utf8.decodeTrap .replace (buf.take n) = .ok cs := hcs
  simp only [hcs2]

/-- Witness for C4 at the buffer FF-LF: the lone invalid byte before the
terminator is replaced and decode succeeds. -/
theorem decode_invalid_bytes_replaced_example :
    bytePosition (fun b => b == 10) [255, 10] = some 1 ∧
    (utf8DecodeTrap .strict ([255, 10].take 1)).isOk = false ∧
    ∃ s : String,
      LineCodec.decode utf8 [255, 10] = (.ok (some s), [255, 10].drop 2) ∧
      replacementChar ∈ s.data := by
  refine ⟨by decide, by decide, ?_⟩
  exact decode_invalid_bytes_replaced.2 [255, 10] 1 (by decide) (by decide)

/-! ## Encode lemmas and the round trip -/

theorem encodeTrapLoop_replace_ok (encChar : Char → Option (List Nat))
    (q : List Nat) (hq : encChar questionMark = some q) :
    ∀ cs : List Char, ∃ data, encodeTrapLoop encChar .replace cs = .ok data
  | [] => ⟨[], rfl⟩
  | c :: cs => by
    obtain ⟨data, hdata⟩ := encodeTrapLoop_replace_ok encChar q hq cs
    cases hc : encChar c with
    | some bs =>
      exact ⟨bs ++ data, by simp [encodeTrapLoop, hc, hdata, Except.map]⟩
    | none =>
      exact ⟨q ++ data, by simp [encodeTrapLoop, hc, hq, hdata, Except.map]⟩

theorem utf8_encodeTrapLoop (t : EncoderTrap) :
    ∀ cs : List Char, encodeTrapLoop utf8.encodeChar t cs = .ok (utf8EncodeAll cs)
  | [] => rfl
  | c :: cs => by
    have ih := utf8_encodeTrapLoop t cs
    simp only [encodeTrapLoop,
      show utf8.encodeChar c = some (utf8EncodeChar c) from rfl, ih, Except.map,
      utf8EncodeAll]

theorem utf8EncodeAll_append (s1 s2 : List Char) :
    utf8EncodeAll (s1 ++ s2) = utf8EncodeAll s1 ++ utf8EncodeAll s2 := by
  induction s1 with
  | nil => rfl
  | cons c cs ih => simp [utf8EncodeAll, ih]

theorem char_eq_of_toNat {a b : Char} (h : a.toNat = b.toNat) : a = b :=
  Char.eq_of_val_eq (UInt32.ext h)

theorem utf8EncodeChar_no_lf (c : Char) (hc : c ≠ Char.ofNat 10) :
    (10 : Nat) ∉ utf8EncodeChar c := by
  intro hmem
  have hne : c.toNat ≠ 10 := fun h => hc (char_eq_of_toNat (by simpa using h))
  simp only [utf8EncodeChar] at hmem
  split_ifs at hmem <;> simp at hmem <;> omega

theorem utf8EncodeAll_no_lf (s : List Char) (h : Char.ofNat 10 ∈ s → False) :
    (10 : Nat) ∉ utf8EncodeAll s := by
  induction s with
  | nil => simp [utf8EncodeAll]
  | cons c cs ih =>
    simp only [utf8EncodeAll, List.mem_append]
    rintro (hm | hm)
    · exact utf8EncodeChar_no_lf c (fun hcn => h (by simp [hcn])) hm
    · exact ih (fun hin => h (by simp [hin])) hm

/-- C5 (amended): for every text that contains no line-terminator character
and is encodable without loss under UTF-8 (decoding its encoding with the
replacing trap reproduces it), encoding the text followed by the terminator
into an empty buffer and decoding that buffer returns exactly the original
text and leaves the buffer empty. -/
theorem encode_decode_round_trip (s : List Char)
    (hnl : Char.ofNat 10 ∈ s → False)
    (hl : utf8DecodeTrap .replace (utf8EncodeAll s) = .ok s) :
    LineCodec.encode utf8 (String.mk (s ++ [Char.ofNat 10])) [] =
      (.ok (), utf8EncodeAll s ++ [10]) ∧
    LineCodec.decode utf8 (utf8EncodeAll s ++ [10]) =
      (.ok (some (String.mk s)), []) := by
  constructor
  · have hn10 : utf8EncodeAll [Char.ofNat 10] = [10] := by decide
    have henc : EncodingImpl.encodeTrap utf8 .replace (s ++ [Char.ofNat 10])
        = .ok (utf8EncodeAll s ++ [10]) := by
      unfold EncodingImpl.encodeTrap
      rw [utf8_encodeTrapLoop, utf8EncodeAll_append, hn10]
    simp only [LineCodec.encode]
    rw [henc]
    simp
  · have hno : (10 : Nat) ∉ utf8EncodeAll s := utf8EncodeAll_no_lf s hnl
    have hpos := bytePosition_append (fun b => b == 10) 10 [] (by simp)
      (utf8EncodeAll s) (fun x hx => by
        have hxne : x ≠ 10 := fun hEq => hno (hEq ▸ hx)
        simpa using hxne)
    simp only [LineCodec.decode, hpos, List.take_left, List.drop_left]
    have hl2 : utf8.decodeTrap .replace (utf8EncodeAll s) = .ok s := hl
    simp only [hl2]
    simp

/-- C5 counterexample: the text a-LF-b is encodable without loss under
UTF-8, yet encoding it plus a terminator into an empty buffer and decoding
once returns only the text before the first terminator and leaves the
buffer nonempty, so the round trip fails for texts containing the
terminator. -/
theorem round_trip_embedded_terminator_example :
    utf8DecodeTrap .replace (utf8EncodeAll ['a', '\n', 'b']) =
      .ok ['a', '\n', 'b'] ∧
    LineCodec.encode utf8 (String.mk (['a', '\n', 'b'] ++ ['\n'])) [] =
      (.ok (), [97, 10, 98, 10]) ∧
    LineCodec.decode utf8 [97, 10, 98, 10] = (.ok (some "a"), [98, 10]) ∧
    LineCodec.decode utf8 [97, 10, 98, 10] ≠
      (.ok (some (String.mk ['a', '\n', 'b'])), []) := by
  exact ⟨by decide, by decide, by decide, by decide⟩

/-- Witness for C5 on the terminator-free text hi. -/
theorem encode_decode_round_trip_example :
    (Char.ofNat 10 ∈ ['h', 'i'] → False) ∧
    utf8DecodeTrap .replace (utf8EncodeAll ['h', 'i']) = .ok ['h', 'i'] ∧
    (LineCodec.encode utf8 (String.mk (['h', 'i'] ++ [Char.ofNat 10])) [] =
      (.ok (), utf8EncodeAll ['h', 'i'] ++ [10]) ∧
    LineCodec.decode utf8 (utf8EncodeAll ['h', 'i'] ++ [10]) =
      (.ok (some (String.mk ['h', 'i'])), [])) := by
  refine ⟨by decide, by decide, ?_⟩
  exact encode_decode_round_trip ['h', 'i'] (by decide) (by decide)

/-! ## Claim theorems for the connection layer -/

/-- C8: with the question mark encodable, encoding with the replacing trap
never fails and appends exactly the encoded bytes to the output buffer with
no terminator added by the codec; an unencodable character is replaced by
the question-mark bytes; and the simulated path never fails with the
encode-failure error when encoding the configured initial payload. -/
theorem encode_never_fails_appends (e : EncodingImpl) (q : List Nat)
    (hq : e.encodeChar questionMark = some q) :
    (∀ (msg : String) (buf : List Nat), ∃ data,
        EncodingImpl.encodeTrap e .replace msg.data = .ok data ∧
        LineCodec.encode e msg buf = (.ok (), buf ++ data)) ∧
    (∀ (c : Char) (cs : List Char), e.encodeChar c = none →
        encodeTrapLoop e.encodeChar .replace (c :: cs) =
          (encodeTrapLoop e.encodeChar .replace cs).map (fun rest => q ++ rest)) ∧
    (∀ (cfg : Config) (w : World) (nm d : String),
        encodingFromLabel cfg.encoding = some e →
        ConnectionFuture.poll (.Mock cfg) w ≠ .err (.codecFailed nm d)) := by
  refine ⟨?_, ?_, ?_⟩
  · intro msg buf
    obtain ⟨data, hdata⟩ := encodeTrapLoop_replace_ok e.encodeChar q hq msg.data
    refine ⟨data, hdata, ?_⟩
    simp only [LineCodec.encode, EncodingImpl.encodeTrap, hdata]
  · intro c cs hc
    simp [encodeTrapLoop, hc, hq]
  · intro cfg w nm d hlabel
    obtain ⟨data, hdata⟩ :=
      encodeTrapLoop_replace_ok e.encodeChar q hq cfg.mock_initial_value.data
    simp [ConnectionFuture.poll, hlabel, EncodingImpl.encodeTrap, hdata,
      IrcCodec.new]

/-- Witness for C8 with the ASCII encoding: the unencodable e-acute is
replaced by the question-mark byte, and encode appends exactly the encoded
bytes. -/
theorem encode_never_fails_appends_example :
    asciiOnly.encodeChar questionMark = some [63] ∧
    LineCodec.encode asciiOnly "é" [1, 2] = (.ok (), [1, 2, 63]) ∧
    ∃ data,
      EncodingImpl.encodeTrap asciiOnly .replace ("é".data) = .ok data ∧
      LineCodec.encode asciiOnly "é" [1, 2] = (.ok (), [1, 2] ++ data) := by
  refine ⟨by decide, by decide, ?_⟩
  exact (encode_never_fails_appends asciiOnly [63] (by decide)).1 "é" [1, 2]

/-- C9: the capture view is available if and only if the connection is the
simulated (Mock) variant; for the plain and encrypted variants it is
always unavailable. -/
theorem log_view_iff_mock (c : Connection) :
    ((Connection.log_view c).isSome = true ↔ Connection.variant c = .simulated) ∧
    (Connection.variant c = .plain ∨ Connection.variant c = .encrypted →
      Connection.log_view c = none) := by
  cases c <;> simp [Connection.log_view, Connection.variant]

/-- C7: exactly one establishment path is selected, by flag priority
(simulated first, then encrypted, then plain), and a Connection produced by
polling the returned future has the variant of the selected path. -/
theorem connection_path_selection :
    (∀ (cfg : Config) (w : World), cfg.use_mock_connection = true →
      Connection.new cfg w = (.ok (.Mock cfg), [])) ∧
    (∀ (cfg : Config) (w : World) (fut : ConnectionFuture),
      cfg.use_mock_connection = false → cfg.use_ssl = true →
      (Connection.new cfg w).1 = .ok fut →
      ∃ d a, fut = .Secured cfg d a) ∧
    (∀ (cfg : Config) (w : World) (fut : ConnectionFuture),
      cfg.use_mock_connection = false → cfg.use_ssl = false →
      (Connection.new cfg w).1 = .ok fut →
      ∃ a, fut = .Unsecured cfg a) ∧
    (∀ (fut : ConnectionFuture) (w : World) (c : Connection),
      ConnectionFuture.poll fut w = .ready c →
      Connection.variant c = ConnectionFuture.variant fut) := by
  refine ⟨?_, ?_, ?_, ?_⟩
  · intro cfg w h
    simp [Connection.new, h]
  · intro cfg w fut hm hs h
    simp only [Connection.new, hm, hs] at h
    simp only [Bool.false_eq_true, if_false, if_true] at h
    cases h1 : cfg.server with
    | error e => simp [h1] at h
    | ok domain =>
      simp only [h1] at h
      cases h2 : certSetup cfg w with
      | error e => simp [h2] at h
      | ok u =>
        cases u
        simp only [h2] at h
        cases h3 : identitySetup cfg w with
        | error e => simp [h3] at h
        | ok u =>
          cases u
          simp only [h3] at h
          cases h4 : w.tlsBuild with
          | error m => simp [h4] at h
          | ok u =>
            cases u
            simp only [h4] at h
            cases h5 : cfg.socket_addr with
            | error e => simp [h5] at h
            | ok addr =>
              simp only [h5] at h
              simp at h
              exact ⟨domain, addr, h.symm⟩
  · intro cfg w fut hm hs h
    simp only [Connection.new, hm, hs] at h
    simp only [Bool.false_eq_true, if_false] at h
    cases h1 : cfg.server with
    | error e => simp [h1] at h
    | ok domain =>
      simp only [h1] at h
      cases h2 : cfg.socket_addr with
      | error e => simp [h2] at h
      | ok addr =>
        simp only [h2] at h
        simp at h
        exact ⟨addr, h.symm⟩
  · intro fut w c h
    cases fut with
    | Unsecured cfg addr =>
      simp only [ConnectionFuture.poll] at h
      cases h1 : w.tcpConnect addr with
      | notReady => simp [h1] at h
      | failed k => simp [h1] at h
      | ready sock =>
        simp only [h1] at h
        cases h2 : IrcCodec.new cfg.encoding with
        | error e => simp [h2] at h
        | ok codec =>
          simp only [h2] at h
          simp at h
          simp [← h, Connection.variant, ConnectionFuture.variant]
    | Secured cfg domain addr =>
      simp only [ConnectionFuture.poll] at h
      cases h1 : w.tcpConnect addr with
      | notReady => simp [h1] at h
      | failed k => simp [h1] at h
      | ready sock =>
        simp only [h1] at h
        cases h2 : w.tlsHandshake domain sock with
        | notReady => simp [h2] at h
        | failed m => simp [h2] at h
        | ready tlsSock =>
          simp only [h2] at h
          cases h3 : IrcCodec.new cfg.encoding with
          | error e => simp [h3] at h
          | ok codec =>
            simp only [h3] at h
            simp at h
            simp [← h, Connection.variant, ConnectionFuture.variant]
    | Mock cfg =>
      simp only [ConnectionFuture.poll] at h
      cases h1 : encodingFromLabel cfg.encoding with
      | none => simp [h1] at h
      | some enc =>
        simp only [h1] at h
        cases h2 : EncodingImpl.encodeTrap enc .replace cfg.mock_initial_value.data with
        | error d => simp [h2] at h
        | ok ini =>
          simp only [h2] at h
          cases h3 : IrcCodec.new cfg.encoding with
          | error e => simp [h3] at h
          | ok codec =>
            simp only [h3] at h
            simp at h
            simp [← h, Connection.variant, ConnectionFuture.variant]

/-- Witness for C7 on a simulated-mode configuration: the Mock future is
returned and polling it yields a Mock-variant connection. -/
theorem connection_path_selection_example :
    cfgMockHello.use_mock_connection = true ∧
    Connection.new cfgMockHello wIdle = (.ok (.Mock cfgMockHello), []) ∧
    ConnectionFuture.poll (.Mock cfgMockHello) wIdle =
      .ready (.Mock (Logged.wrap { codec := { label := "utf-8" } })) ∧
    Connection.variant (.Mock (Logged.wrap { codec := { label := "utf-8" } })) =
      ConnectionFuture.variant (.Mock cfgMockHello) := by
  refine ⟨rfl, connection_path_selection.1 cfgMockHello wIdle rfl, rfl, ?_⟩
  exact connection_path_selection.2.2.2 (.Mock cfgMockHello) wIdle
    (.Mock (Logged.wrap { codec := { label := "utf-8" } })) rfl

/-- C3 (amended): an unknown encoding label always produces the
unknown-codec error naming the requested label, but only the simulated path
surfaces it before any network action (and independently of the external
world); on the plain and encrypted paths Connection::new initiates the TCP
connect regardless, and the error is surfaced by the first poll after the
connect (and, for the encrypted path, the handshake) completes. -/
theorem unknown_codec_surfacing :
    (∀ (cfg : Config) (w : World), cfg.use_mock_connection = true →
      Connection.new cfg w = (.ok (.Mock cfg), []) ∧
      (∀ w2 : World,
        ConnectionFuture.poll (.Mock cfg) w = ConnectionFuture.poll (.Mock cfg) w2) ∧
      (encodingFromLabel cfg.encoding = none →
        ConnectionFuture.poll (.Mock cfg) w = .err (.unknownCodec cfg.encoding))) ∧
    (∀ (cfg : Config) (addr : SocketAddr) (w : World) (s : TcpSock),
      encodingFromLabel cfg.encoding = none → w.tcpConnect addr = .ready s →
      ConnectionFuture.poll (.Unsecured cfg addr) w =
        .err (.unknownCodec cfg.encoding)) ∧
    (∀ (cfg : Config) (d : String) (addr : SocketAddr) (w : World)
        (s : TcpSock) (ts : TlsSock),
      encodingFromLabel cfg.encoding = none → w.tcpConnect addr = .ready s →
      w.tlsHandshake d s = .ready ts →
      ConnectionFuture.poll (.Secured cfg d addr) w =
        .err (.unknownCodec cfg.encoding)) := by
  refine ⟨?_, ?_, ?_⟩
  · intro cfg w hm
    refine ⟨by simp [Connection.new, hm], fun w2 => rfl, fun hl => ?_⟩
    simp [ConnectionFuture.poll, hl]
  · intro cfg addr w s hl hc
    simp [ConnectionFuture.poll, hc, IrcCodec.new, hl]
  · intro cfg d addr w s ts hl hc hh
    simp [ConnectionFuture.poll, hc, hh, IrcCodec.new, hl]

/-- C3 counterexample: with the unknown label no-such-encoding on the plain
path, Connection::new succeeds (no unknown-codec failure at establishment
entry) and initiates the TCP connect, so the failure is not surfaced before
network activity on this path. -/
theorem unknown_codec_after_connect_example :
    encodingFromLabel cfgNoSuch.encoding = none ∧
    Connection.new cfgNoSuch wIdle =
      (.ok (.Unsecured cfgNoSuch "203.0.113.5:6667"),
        [Event.tcpConnect "203.0.113.5:6667"]) ∧
    Event.tcpConnect "203.0.113.5:6667" ∈ (Connection.new cfgNoSuch wIdle).2 := by
  exact ⟨rfl, rfl, List.Mem.head _⟩

/-- Witness for C3 (amended): the simulated path with the unknown label
fails immediately with the unknown-codec error naming the label, with no
network action recorded. -/
theorem unknown_codec_surfacing_example :
    (cfgMockNoSuch.use_mock_connection = true ∧
      Connection.new cfgMockNoSuch wIdle = (.ok (.Mock cfgMockNoSuch), []) ∧
      ConnectionFuture.poll (.Mock cfgMockNoSuch) wIdle =
        .err (.unknownCodec "no-such-encoding")) ∧
    (encodingFromLabel cfgNoSuch.encoding = none ∧
      wReady.tcpConnect "203.0.113.5:6667" = .ready 7 ∧
      ConnectionFuture.poll (.Unsecured cfgNoSuch "203.0.113.5:6667") wReady =
        .err (.unknownCodec "no-such-encoding")) := by
  constructor
  · refine ⟨rfl, ((unknown_codec_surfacing.1 cfgMockNoSuch wIdle rfl).1), ?_⟩
    exact (unknown_codec_surfacing.1 cfgMockNoSuch wIdle rfl).2.2 rfl
  · refine ⟨rfl, rfl, ?_⟩
    exact unknown_codec_surfacing.2.1 cfgNoSuch "203.0.113.5:6667" wReady 7 rfl rfl

/-- C6: on the encrypted path, a configured root-certificate path whose
file cannot be opened makes Connection::new fail with an I/O error, and no
TCP connect is initiated. -/
theorem ssl_missing_cert_no_connect (cfg : Config) (w : World)
    (d : String) (p : String) (k : IoErrorKind)
    (hm : cfg.use_mock_connection = false) (hs : cfg.use_ssl = true)
    (hd : cfg.server = .ok d) (hp : cfg.cert_path = some p)
    (hf : w.files p = .error k) :
    Connection.new cfg w = (.error (.io k), []) ∧
    ∀ a, Event.tcpConnect a ∉ (Connection.new cfg w).2 := by
  have hcert : certSetup cfg w = .error (.io k) := by
    simp [certSetup, hp, hf]
  have hnew : Connection.new cfg w = (.error (.io k), []) := by
    simp [Connection.new, hm, hs, hd, hcert]
  exact ⟨hnew, fun a => by simp [hnew]⟩

/-- Witness for C6: a not-found root-certificate file fails establishment
with the not-found I/O error and records no TCP connect. -/
theorem ssl_missing_cert_no_connect_example :
    cfgSslMissingCert.use_mock_connection = false ∧
    cfgSslMissingCert.use_ssl = true ∧
    cfgSslMissingCert.server = .ok "irc.example.com" ∧
    cfgSslMissingCert.cert_path = some "/missing/root.der" ∧
    wIdle.files "/missing/root.der" = .error .notFound ∧
    (Connection.new cfgSslMissingCert wIdle = (.error (.io .notFound), []) ∧
      ∀ a, Event.tcpConnect a ∉ (Connection.new cfgSslMissingCert wIdle).2) := by
  refine ⟨rfl, rfl, rfl, rfl, rfl, ?_⟩
  exact ssl_missing_cert_no_connect cfgSslMissingCert wIdle
    "irc.example.com" "/missing/root.der" .notFound rfl rfl rfl rfl rfl

theorem certSetup_ok (cfg : Config) (w : World) (u : Unit)
    (h : certSetup cfg w = .ok u) :
    ∀ p, cfg.cert_path = some p →
      ∃ bytes, w.files p = .ok bytes ∧ w.parseDer bytes = .ok () := by
  intro p hp
  simp only [certSetup, hp] at h
  cases hf : w.files p with
  | error k => simp [hf] at h
  | ok bytes =>
    simp only [hf] at h
    cases hd : w.parseDer bytes with
    | error m => simp [hd] at h
    | ok v => exact ⟨bytes, rfl, by cases v; exact hd⟩

theorem identitySetup_ok (cfg : Config) (w : World) (u : Unit)
    (h : identitySetup cfg w = .ok u) :
    ∀ p, cfg.client_cert_path = some p →
      ∃ bytes, w.files p = .ok bytes ∧
        w.parsePkcs12 bytes cfg.client_cert_pass = .ok () := by
  intro p hp
  simp only [identitySetup, hp] at h
  cases hf : w.files p with
  | error k => simp [hf] at h
  | ok bytes =>
    simp only [hf] at h
    cases hd : w.parsePkcs12 bytes cfg.client_cert_pass with
    | error m => simp [hd] at h
    | ok v => exact ⟨bytes, rfl, by cases v; exact hd⟩

/-- C10: when the encrypted path returns a future at all, every synchronous
step (server-address computation, certificate read and parse, identity read
and parse, TLS-connector construction, socket-address computation) has
already succeeded inside Connection::new; and polling an encrypted-path
future can only fail with a TCP-connect I/O error, a TLS error, or the
unknown-codec error for the configured label. -/
theorem ssl_failures_synchronous :
    (∀ (cfg : Config) (w : World) (fut : ConnectionFuture) (evs : List Event),
      cfg.use_mock_connection = false → cfg.use_ssl = true →
      Connection.new cfg w = (.ok fut, evs) →
      (∃ d, cfg.server = .ok d) ∧
      (∀ p, cfg.cert_path = some p →
        ∃ bytes, w.files p = .ok bytes ∧ w.parseDer bytes = .ok ()) ∧
      (∀ p, cfg.client_cert_path = some p →
        ∃ bytes, w.files p = .ok bytes ∧
          w.parsePkcs12 bytes cfg.client_cert_pass = .ok ()) ∧
      w.tlsBuild = .ok () ∧ (∃ a, cfg.socket_addr = .ok a)) ∧
    (∀ (cfg : Config) (d : String) (a : SocketAddr) (w : World) (e : IrcError),
      ConnectionFuture.poll (.Secured cfg d a) w = .err e →
      (∃ k, e = .io k) ∨ (∃ m, e = .tls m) ∨ e = .unknownCodec cfg.encoding) := by
  constructor
  · intro cfg w fut evs hm hs h
    simp only [Connection.new, hm, hs] at h
    simp only [Bool.false_eq_true, if_false, if_true] at h
    cases h1 : cfg.server with
    | error e => simp [h1] at h
    | ok domain =>
      simp only [h1] at h
      cases h2 : certSetup cfg w with
      | error e => simp [h2] at h
      | ok u =>
        cases u
        simp only [h2] at h
        cases h3 : identitySetup cfg w with
        | error e => simp [h3] at h
        | ok u =>
          cases u
          simp only [h3] at h
          cases h4 : w.tlsBuild with
          | error m => simp [h4] at h
          | ok u =>
            cases u
            simp only [h4] at h
            cases h5 : cfg.socket_addr with
            | error e => simp [h5] at h
            | ok addr =>
              exact ⟨⟨domain, rfl⟩, certSetup_ok cfg w () h2,
                identitySetup_ok cfg w () h3, rfl, ⟨addr, rfl⟩⟩
  · intro cfg d a w e h
    simp only [ConnectionFuture.poll] at h
    cases h1 : w.tcpConnect a with
    | notReady => simp [h1] at h
    | failed k =>
      simp only [h1] at h
      simp at h
      exact Or.inl ⟨k, h.symm⟩
    | ready sock =>
      simp only [h1] at h
      cases h2 : w.tlsHandshake d sock with
      | notReady => simp [h2] at h
      | failed m =>
        simp only [h2] at h
        simp at h
        exact Or.inr (Or.inl ⟨m, h.symm⟩)
      | ready ts =>
        simp only [h2] at h
        cases h3 : encodingFromLabel cfg.encoding with
        | none =>
          simp only [IrcCodec.new, h3] at h
          simp at h
          exact Or.inr (Or.inr h.symm)
        | some enc => simp [IrcCodec.new, h3] at h

/-- Witness for C10: a fully configured encrypted path in a world where all
external steps succeed returns the Secured future after all synchronous
steps succeeded, and a connect failure is classified as an I/O error by the
poll of a Secured future. -/
theorem ssl_failures_synchronous_example :
    (cfgSslFull.use_mock_connection = false ∧ cfgSslFull.use_ssl = true ∧
      Connection.new cfgSslFull wReady =
        (.ok (.Secured cfgSslFull "irc.example.com" "203.0.113.5:6667"),
          [Event.tcpConnect "203.0.113.5:6667"]) ∧
      ((∃ d, cfgSslFull.server = .ok d) ∧
        (∀ p, cfgSslFull.cert_path = some p →
          ∃ bytes, wReady.files p = .ok bytes ∧ wReady.parseDer bytes = .ok ()) ∧
        (∀ p, cfgSslFull.client_cert_path = some p →
          ∃ bytes, wReady.files p = .ok bytes ∧
            wReady.parsePkcs12 bytes cfgSslFull.client_cert_pass = .ok ()) ∧
        wReady.tlsBuild = .ok () ∧ (∃ a, cfgSslFull.socket_addr = .ok a))) ∧
    (ConnectionFuture.poll (.Secured cfgSslFull "irc.example.com" "1.2.3.4:1")
        wRefused = .err (.io .connectionRefused) ∧
      ((∃ k, (IrcError.io .connectionRefused) = .io k) ∨
        (∃ m, (IrcError.io .connectionRefused) = .tls m) ∨
        (IrcError.io .connectionRefused) = .unknownCodec cfgSslFull.encoding)) := by
  constructor
  · refine ⟨rfl, rfl, rfl, ?_⟩
    exact ssl_failures_synchronous.1 cfgSslFull wReady
      (.Secured cfgSslFull "irc.example.com" "203.0.113.5:6667")
      [Event.tcpConnect "203.0.113.5:6667"] rfl rfl rfl
  · refine ⟨rfl, ?_⟩
    exact ssl_failures_synchronous.2 cfgSslFull "irc.example.com" "1.2.3.4:1"
      wRefused (.io .connectionRefused) rfl

end Irc
